import Mathlib

/-! Verification development for the DegenDogs-DAO repository.

The TypeScript/JavaScript sources are shallowly embedded: JS strings become
`List Char`, JS `BigInt` balances become `Nat` (all balances in this code are
hex-decoded unsigned integers), thrown exceptions become `Option`/`Except`,
and asynchronous I/O collaborators (the wallet provider, the JSON-RPC
transport, `JSON.parse`) become explicit oracle parameters.  DOM/status-text
updates and debug logging from the source are pure UI side effects and are
not part of the embedded state.

Source files: `src/client/app.ts` (identical logic appears in
`public/assets/app.js`, which additionally contains `createThreadReply` and
the `threadCount` field), `deno/verify.ts`, and `src/server/index.ts`.
-/

namespace DegenDogs

/-- A JavaScript string, embedded as its list of characters. -/
abbrev JStr := List Char

/-- Embedding of `String.prototype.trim`: drop leading and trailing
whitespace. -/
def jsTrim (s : JStr) : JStr :=
  ((s.dropWhile Char.isWhitespace).reverse.dropWhile Char.isWhitespace).reverse

/-- Embedding of `String.prototype.toLowerCase` on the ASCII strings this
app manipulates (hex addresses, chain ids, error messages). -/
def toLowerStr (s : JStr) : JStr :=
  s.map Char.toLower

/-- Value of one hexadecimal digit, accepting both cases (as JS `BigInt`
hex parsing does); `none` on a non-hex character. -/
def hexDigitVal? (c : Char) : Option Nat :=
  if '0' ≤ c ∧ c ≤ '9' then some (c.toNat - 48)
  else if 'a' ≤ c ∧ c ≤ 'f' then some (c.toNat - 87)
  else if 'A' ≤ c ∧ c ≤ 'F' then some (c.toNat - 55)
  else none

/-- Whether a character is a hexadecimal digit (either case). -/
def isHexDigitChar (c : Char) : Bool :=
  (hexDigitVal? c).isSome

/-- Whether a character is in the class `[0-9a-f]` used by the address
regular expression in `normalizeAddress`. -/
def isLowerHexDigit (c : Char) : Bool :=
  ('0' ≤ c && c ≤ '9') || ('a' ≤ c && c ≤ 'f')

/-- Numeric value of a list of hex digits, most significant first
(non-digits count 0; used only on all-digit lists). -/
def hexListVal (l : JStr) : Nat :=
  l.foldl (fun a c => a * 16 + (hexDigitVal? c).getD 0) 0

/-- Parse a list of hex digits; `none` as soon as one character is not a
hex digit (JS `BigInt("0x...")` throws on such input). -/
def parseHexDigits (l : JStr) : Option Nat :=
  l.foldl
    (fun acc c =>
      match acc, hexDigitVal? c with
      | some a, some d => some (a * 16 + d)
      | _, _ => none)
    (some 0)

/-- Numeric value of a list of decimal digits, most significant first. -/
def decListVal (l : JStr) : Nat :=
  l.foldl (fun a c => a * 10 + (c.toNat - 48)) 0

/-- Embedding of JS `BigInt(string)` on the string forms reaching it in this
code: `0x`/`0X`-prefixed hex numerals, plain decimal numerals, and the empty
string (which JS converts to `0`); `none` models a thrown `SyntaxError`. -/
def jsBigIntOfString (s : JStr) : Option Nat :=
  match s with
  | '0' :: 'x' :: ds => if ds = [] then none else parseHexDigits ds
  | '0' :: 'X' :: ds => if ds = [] then none else parseHexDigits ds
  | _ => if s.all Char.isDigit then some (decListVal s) else none

/-- From `src/client/app.ts` lines 691-696 (`parseHexToBigInt`): the empty string
and `"0x"` decode to zero, anything else goes through `BigInt(value)`. -/
def parseHexToBigInt (value : JStr) : Option Nat :=
  if value = [] ∨ value = '0' :: 'x' :: [] then some 0
  else jsBigIntOfString value

/-- Embedding of `String.prototype.replace("0x", "")`: remove the first
occurrence of the substring `0x`. -/
def removeFirst0x : JStr → JStr
  | [] => []
  | '0' :: 'x' :: rest => rest
  | c :: rest => c :: removeFirst0x rest

/-- From `src/client/app.ts` lines 683-689 (`encodeBalanceOf`): lower-case the
address, strip the first `0x`, require exactly 40 remaining characters
(`throw new Error("Invalid address")` otherwise, embedded as `none`), and
return the 4-byte selector `0x70a08231` followed by the address padded on
the left with `0` to 64 hex characters (`padStart(64, "0")`). -/
def encodeBalanceOf (addr : JStr) : Option JStr :=
  let clean := removeFirst0x (toLowerStr addr)
  if clean.length = 40 then
    some ("0x70a08231".data ++ (List.replicate (64 - clean.length) '0' ++ clean))
  else
    none

/-- The hex character for a digit below 16 (as produced by JS
`Number.prototype.toString(16)`). -/
def hexDigitChar (d : Nat) : Char :=
  match d with
  | 0 => '0' | 1 => '1' | 2 => '2' | 3 => '3'
  | 4 => '4' | 5 => '5' | 6 => '6' | 7 => '7'
  | 8 => '8' | 9 => '9' | 10 => 'a' | 11 => 'b'
  | 12 => 'c' | 13 => 'd' | 14 => 'e' | _ => 'f'

/-- Accumulator loop for `natToHex`. -/
def natToHexAux (n : Nat) (acc : JStr) : JStr :=
  if h : n = 0 then acc
  else natToHexAux (n / 16) (hexDigitChar (n % 16) :: acc)
  termination_by n
  decreasing_by
    exact Nat.div_lt_self (Nat.pos_of_ne_zero h) (by norm_num)

/-- Embedding of JS `n.toString(16)` for a non-negative integer `n`. -/
def natToHex (n : Nat) : JStr :=
  if n = 0 then ['0'] else natToHexAux n []

/-- Whether a (trimmed, lower-cased) string matches the address regular
expression `^0x[0-9a-f]{40}$` from `normalizeAddress`. -/
def addressFormat : JStr → Bool
  | '0' :: 'x' :: rest => rest.length == 40 && rest.all isLowerHexDigit
  | _ => false

/-- From `src/client/app.ts` lines 251-257 (`normalizeAddress`): trim and
lower-case the candidate; `null` unless it matches `^0x[0-9a-f]{40}$`. -/
def normalizeAddress (value : JStr) : Option JStr :=
  let trimmed := toLowerStr (jsTrim value)
  if addressFormat trimmed then some trimmed else none

/-- One step of the `uniqueAddresses` loop: JS `Set.add` keeps insertion
order and ignores an element already present. -/
def insertUniq (acc : List JStr) (a : JStr) : List JStr :=
  if a ∈ acc then acc else acc ++ [a]

/-- From `src/client/app.ts` lines 259-268 (`uniqueAddresses`): normalize each
candidate, drop the invalid ones, and deduplicate in insertion order. -/
def uniqueAddresses (addresses : List JStr) : List JStr :=
  addresses.foldl
    (fun acc address =>
      match normalizeAddress address with
      | some normalized => insertUniq acc normalized
      | none => acc)
    []

/-- Outcome of one JSON-RPC `eth_call` round trip (`rpcCallBase`): either a
result string, or a thrown transport/HTTP/RPC error with its message.  The
HTTP and JSON-RPC envelopes of `rpcCallBase` are folded into this oracle. -/
inductive RpcOutcome
  | ok (result : JStr)
  | fail (message : JStr)
deriving DecidableEq

/-- How one `balanceOfAddress` call can fail: `invalidAddress` embeds the
synchronous `throw new Error("Invalid address")` from `encodeBalanceOf`
(raised before any network request), `rpcFailure` embeds an error thrown
by the `rpcCallBase` transport, and `parseFailure` a `BigInt` decoding
error on the returned result. -/
inductive BalanceError
  | invalidAddress
  | rpcFailure (message : JStr)
  | parseFailure
deriving DecidableEq

/-- From `src/client/app.ts` lines 815-819 (`balanceOfAddress`): encode the
`balanceOf(address)` call data, send it through the RPC transport, and
decode the hex result. -/
def balanceOfAddress (rpc : JStr → RpcOutcome) (address : JStr) :
    Except BalanceError Nat :=
  match encodeBalanceOf address with
  | none => .error .invalidAddress
  | some data =>
    match rpc data with
    | .fail message => .error (.rpcFailure message)
    | .ok result =>
      match parseHexToBigInt result with
      | none => .error .parseFailure
      | some v => .ok v

/-- The `{total, checked, failed}` record accumulated by
`checkProfileHoldings`. -/
structure HoldingsSummary where
  total : Nat
  checked : Nat
  failed : Nat
deriving DecidableEq

/-- The `Promise.allSettled` aggregation loop of `checkProfileHoldings`
(lines 845-862): a fulfilled balance adds to `total` and `checked`, a
rejected one adds to `failed`. -/
def aggregateHoldings (addrs : List JStr) (rpc : JStr → RpcOutcome) :
    HoldingsSummary :=
  addrs.foldl
    (fun s a =>
      match balanceOfAddress rpc a with
      | .ok v => { s with total := s.total + v, checked := s.checked + 1 }
      | .error _ => { s with failed := s.failed + 1 })
    ⟨0, 0, 0⟩

/-- From `src/client/app.ts` lines 821-892 (`checkProfileHoldings`), stripped of
its status-text updates: deduplicate the verified addresses; with no valid
address store and return `{0, 0, 0}`; otherwise aggregate, and when every
query failed (`!checked`) store `null` while returning the computed record.
The first component is the `profileHoldings` module variable after the call,
the second the function's return value. -/
def checkProfileHoldings (verifiedAddresses : List JStr)
    (rpc : JStr → RpcOutcome) : Option HoldingsSummary × HoldingsSummary :=
  let addresses := uniqueAddresses verifiedAddresses
  if addresses = [] then (some ⟨0, 0, 0⟩, ⟨0, 0, 0⟩)
  else
    let s := aggregateHoldings addresses rpc
    if s.checked = 0 then (none, s) else (some s, s)

/-- From `src/client/app.ts` lines 369-374 (`updateHolderState`), as the pure
derivation of `isHolder` from the two module variables (`null` meaning "not
yet checked", defaulted to `0n` by `?? 0n`). -/
def updateHolderState (profileHoldings : Option HoldingsSummary)
    (walletHoldings : Option Nat) : Bool :=
  let profileTotal := (profileHoldings.map HoldingsSummary.total).getD 0
  let walletTotal := walletHoldings.getD 0
  decide (0 < profileTotal) || decide (0 < walletTotal)

/-- A JS value returned by a provider `eth_chainId` request, as far as
`normalizeChainId` inspects it: a finite non-negative number, a string, or
anything else (chain ids are unsigned, so numbers are embedded as `Nat`). -/
inductive JsValue
  | num (n : Nat)
  | str (s : JStr)
  | other
deriving DecidableEq

/-- A JS error `code` property: a number or a string (absent codes are
`none` on `JsError.code`). -/
inductive CodeVal
  | num (n : Int)
  | str (s : JStr)
deriving DecidableEq

/-- A thrown provider error object as far as the client inspects it:
its `code` property and its `message` (what `errorMessage` extracts). -/
structure JsError where
  code : Option CodeVal
  message : JStr
deriving DecidableEq

/-- Embedding of `String.prototype.includes`: `pat` occurs as a contiguous
substring of the second argument. -/
def hasSubstr (pat : JStr) : JStr → Bool
  | [] => pat.isEmpty
  | c :: rest => pat.isPrefixOf (c :: rest) || hasSubstr pat rest

/-- From `src/client/app.ts` lines 709-723 (`isMethodUnsupported`). -/
def isMethodUnsupported (e : JsError) : Bool :=
  let message := toLowerStr e.message
  hasSubstr "not support".data message ||
  hasSubstr "unsupported".data message ||
  decide (e.code = some (CodeVal.num (-32601))) ||
  decide (e.code = some (CodeVal.str "METHOD_NOT_FOUND".data)) ||
  decide (e.code = some (CodeVal.num 4200)) ||
  decide (e.code = some (CodeVal.str "4200".data))

/-- From `src/client/app.ts` lines 725-737 (`isUserRejected`). -/
def isUserRejected (e : JsError) : Bool :=
  let message := toLowerStr e.message
  decide (e.code = some (CodeVal.num 4001)) ||
  decide (e.code = some (CodeVal.str "4001".data)) ||
  decide (e.code = some (CodeVal.str "ACTION_REJECTED".data)) ||
  hasSubstr "user rejected".data message

/-- The `code === 4902 || code === "4902"` test in `ensureBaseChain`
("chain not recognized"). -/
def is4902 (e : JsError) : Bool :=
  decide (e.code = some (CodeVal.num 4902)) ||
  decide (e.code = some (CodeVal.str "4902".data))

/-- Embedding of JS `Number(trimmed)` restricted to the plain decimal
numerals that occur as textual chain ids; every other string is `NaN`. -/
def jsNumberOfString (t : JStr) : Option Nat :=
  if t ≠ [] ∧ t.all Char.isDigit then some (decListVal t) else none

/-- From `src/client/app.ts` lines 739-757 (`normalizeChainId`): a finite number
becomes `0x` plus its hex form; a string is trimmed (`null` when empty),
either re-prefixed and lower-cased when it already starts with `0x`/`0X`,
or converted through `Number`; anything else is `null`. -/
def normalizeChainId (value : JsValue) : Option JStr :=
  match value with
  | .num n => some ('0' :: 'x' :: natToHex n)
  | .str s =>
    let trimmed := jsTrim s
    match trimmed with
    | [] => none
    | '0' :: 'x' :: rest => some ('0' :: 'x' :: toLowerStr rest)
    | '0' :: 'X' :: rest => some ('0' :: 'x' :: toLowerStr rest)
    | _ =>
      match jsNumberOfString trimmed with
      | some n => some ('0' :: 'x' :: natToHex n)
      | none => none
  | .other => none

/-- The required chain id `BASE_CHAIN_ID = "0x2105"`. -/
def baseChainId : JStr := "0x2105".data

/-- A deterministic trace of the injected wallet provider's answers, one
field per `request` call `ensureBaseChain` can make, in program order:
the initial `eth_chainId` read, the `wallet_switchEthereumChain` call, the
`eth_chainId` re-read after a successful switch, the
`wallet_addEthereumChain` call, and the `eth_chainId` re-read after a
successful add. -/
structure ProviderTrace where
  ethChainId1 : Except JsError JsValue
  switchChain : Except JsError Unit
  ethChainId2 : Except JsError JsValue
  addChain : Except JsError Unit
  ethChainId3 : Except JsError JsValue

/-- The `{chainId, useRpcFallback}` record returned by `ensureBaseChain`. -/
structure EnsureResult where
  chainId : Option JStr
  useRpcFallback : Bool
deriving DecidableEq

/-- The body of the `try` block around `wallet_switchEthereumChain`: the
switch followed by the `eth_chainId` re-read; an error thrown by either call
lands in the same `catch`. -/
def switchAndReread (p : ProviderTrace) : Except JsError (Option JStr) :=
  match p.switchChain with
  | .error e => .error e
  | .ok _ =>
    match p.ethChainId2 with
    | .error e => .error e
    | .ok raw => .ok (normalizeChainId raw)

/-- The body of the inner `try` block around `wallet_addEthereumChain`: the
add followed by the `eth_chainId` re-read. -/
def addAndReread (p : ProviderTrace) : Except JsError (Option JStr) :=
  match p.addChain with
  | .error e => .error e
  | .ok _ =>
    match p.ethChainId3 with
    | .error e => .error e
    | .ok raw => .ok (normalizeChainId raw)

/-- The final `isBase`/`useRpcFallback` computation of `ensureBaseChain`. -/
def finishResult (chainId : Option JStr) : EnsureResult :=
  ⟨chainId, !decide (chainId = some baseChainId)⟩

/-- From `src/client/app.ts` lines 930-992 (`ensureBaseChain`), stripped of its
status-text updates and logging.  A failing initial `eth_chainId` read
returns `{chainId: null, useRpcFallback: true}`.  On a mismatch with
switching allowed: attempt the switch and re-read; classify a thrown error
as 4902 (add the network definition, then re-read), else as
method-unsupported / user-rejected (return the pre-switch chain id with the
RPC fallback), else rethrow. -/
def ensureBaseChain (p : ProviderTrace) (allowSwitch : Bool) :
    Except JsError EnsureResult :=
  match p.ethChainId1 with
  | .error _ => .ok ⟨none, true⟩
  | .ok raw =>
    let chainId := normalizeChainId raw
    if allowSwitch && !decide (chainId = some baseChainId) then
      match switchAndReread p with
      | .ok c => .ok (finishResult c)
      | .error e =>
        if is4902 e then
          match addAndReread p with
          | .ok c => .ok (finishResult c)
          | .error _ => .ok ⟨chainId, true⟩
        else if isMethodUnsupported e || isUserRejected e then
          .ok ⟨chainId, true⟩
        else
          .error e
    else
      .ok (finishResult chainId)

/-- A `posts` collection document, as written by `createPost`
(`public/assets/app.js` lines 712-781): title, body, author metadata, and
the two counters, both starting at 0.  The optional `username`/`displayName`
fields and the server timestamp do not affect any counted invariant and are
not modeled. -/
structure Post where
  title : JStr
  body : JStr
  fid : Nat
  uid : JStr
  voteCount : Nat
  threadCount : Nat
deriving DecidableEq

/-- A `posts/{postId}/threads` reply document, as written by
`createThreadReply` (`public/assets/app.js` lines 623-689). -/
structure Reply where
  postId : Nat
  body : JStr
  fid : Nat
  uid : JStr
deriving DecidableEq

/-- The transactional document store.  Firestore's generated document ids
are embedded as a fresh-id counter; `posts` and `replies` are keyed
association lists (key order = creation order), and a vote document at path
`posts/{postId}/votes/{uid}` is embedded as its key `(postId, uid)` (its
payload `{fid, uid, createdAt}` carries no counted information). -/
structure Store where
  nextId : Nat
  posts : List (Nat × Post)
  replies : List (Nat × Reply)
  votes : List (Nat × JStr)
deriving DecidableEq

/-- The empty store. -/
def emptyStore : Store := ⟨0, [], [], []⟩

/-- Reading the document `posts/{postId}`. -/
def lookupPost (st : Store) (postId : Nat) : Option Post :=
  (st.posts.find? (fun e => e.1 == postId)).map Prod.snd

/-- Number of reply documents under `posts/{postId}/threads`. -/
def countReplies (st : Store) (postId : Nat) : Nat :=
  st.replies.countP (fun e => e.2.postId == postId)

/-- From `public/assets/app.js` lines 712-781 (`createPost`), store part: the
guard clauses reject an empty or over-length (`POST_TITLE_MAX = 120`,
`POST_BODY_MAX = 1200`) title/body without touching the store; an accepted
post is inserted under a fresh id with `voteCount: 0, threadCount: 0`.
`title` and `body` are the already-trimmed form values. -/
def createPost (st : Store) (title body : JStr) (fid : Nat) (uid : JStr) :
    Store :=
  if title = [] ∨ body = [] ∨ 120 < title.length ∨ 1200 < body.length then st
  else
    { st with
      nextId := st.nextId + 1,
      posts := st.posts ++
        [(st.nextId,
          { title := title, body := body, fid := fid, uid := uid,
            voteCount := 0, threadCount := 0 })] }

/-- The `increment(1)` update applied to a post's `threadCount` field. -/
def bumpThread (p : Post) : Post :=
  { p with threadCount := p.threadCount + 1 }

/-- Bump `threadCount` of the post document keyed `postId` (the
`tx.update(postRef, {threadCount: increment(1)})` write). -/
def bumpThreadCount (posts : List (Nat × Post)) (postId : Nat) :
    List (Nat × Post) :=
  posts.map (fun e => if e.1 == postId then (e.1, bumpThread e.2) else e)

/-- From `public/assets/app.js` lines 623-689 (`createThreadReply`), store part:
the guard clauses reject an empty or over-length (`THREAD_BODY_MAX = 800`)
body without touching the store; the transaction then inserts the reply
document and increments the parent's `threadCount` atomically —
`tx.update` on a missing parent aborts the whole transaction, leaving the
store unchanged (the `false` outcome, reported as a retryable error). -/
def createThreadReply (st : Store) (postId : Nat) (body : JStr) (fid : Nat)
    (uid : JStr) : Store × Bool :=
  if body = [] ∨ 800 < body.length then (st, false)
  else
    match lookupPost st postId with
    | none => (st, false)
    | some _ =>
      ({ st with
         nextId := st.nextId + 1,
         replies := st.replies ++
           [(st.nextId, { postId := postId, body := body, fid := fid, uid := uid })],
         posts := bumpThreadCount st.posts postId },
       true)

/-- Outcome of `voteOnPost` as observed by the caller: the vote was
recorded, the user had already voted ("You already voted on this post."),
or the transaction failed ("Unable to record vote."). -/
inductive VoteResult
  | recorded
  | alreadyVoted
  | failed
deriving DecidableEq

/-- The `increment(1)` update applied to a post's `voteCount` field. -/
def bumpVote (p : Post) : Post :=
  { p with voteCount := p.voteCount + 1 }

/-- Bump `voteCount` of the post document keyed `postId` (the
`tx.update(postRef, {voteCount: increment(1)})` write). -/
def bumpVoteCount (posts : List (Nat × Post)) (postId : Nat) :
    List (Nat × Post) :=
  posts.map (fun e => if e.1 == postId then (e.1, bumpVote e.2) else e)

/-- From `src/client/app.ts` lines 575-622 (`voteOnPost`), transaction part (the
preceding sign-in/holder guard clauses return without touching the store):
within one transaction, read the vote document keyed `(postId, uid)`; if it
exists return with no write (`didVote` stays false); otherwise create it
and increment the post's `voteCount`.  `tx.update` on a missing post
document aborts the transaction atomically. -/
def voteOnPost (st : Store) (postId : Nat) (uid : JStr) :
    Store × VoteResult :=
  if (postId, uid) ∈ st.votes then (st, .alreadyVoted)
  else
    match lookupPost st postId with
    | none => (st, .failed)
    | some _ =>
      ({ st with
         votes := st.votes ++ [(postId, uid)],
         posts := bumpVoteCount st.posts postId },
       .recorded)

/-- A gated write operation, for sequencing `createPost` and
`createThreadReply` calls. -/
inductive WriteOp
  | post (title body : JStr) (fid : Nat) (uid : JStr)
  | reply (postId : Nat) (body : JStr) (fid : Nat) (uid : JStr)

/-- Apply one write operation. -/
def applyOp (st : Store) : WriteOp → Store
  | .post title body fid uid => createPost st title body fid uid
  | .reply postId body fid uid => (createThreadReply st postId body fid uid).1

/-- Run a sequence of write operations from the empty store. -/
def runOps (ops : List WriteOp) : Store :=
  ops.foldl applyOp emptyStore

/-- The union construction shared by `deno/verify.ts` lines 167-185 and
`src/server/index.ts` lines 155-173: a JS `Set<string>` is filled with the
directory's `verified_addresses.eth_addresses` list, then the alternate
`verifications` list, then the custody address (only when it is a truthy
string), and read back with `Array.from`.  JS `Set` equality on strings is
exact (case-sensitive) and insertion order is preserved. -/
def buildVerifiedEthAddresses (ethAddresses verifications : List JStr)
    (custody : Option JStr) : List JStr :=
  let s1 := ethAddresses.foldl insertUniq []
  let s2 := verifications.foldl insertUniq s1
  match custody with
  | some c => if c = [] then s2 else insertUniq s2 c
  | none => s2

/-- The same union as the spec's words describe it ("deduplicated
case-insensitively ... returned in normalized (lower-case) form"), for
comparison with `buildVerifiedEthAddresses`. -/
def specVerifiedEthAddresses (ethAddresses verifications : List JStr)
    (custody : Option JStr) : List JStr :=
  ((ethAddresses ++ verifications ++ custody.toList).map toLowerStr).foldl
    insertUniq []

/-- An inbound `/api/verify` request, as far as token and domain extraction
inspect it: method, raw body text, and the relevant headers. -/
structure VReq where
  method : JStr
  body : JStr
  authorization : Option JStr
  xForwardedHost : Option JStr
  xOriginalHost : Option JStr
  xForwardedServer : Option JStr
  host : Option JStr

/-- A `JSON.parse` oracle for request bodies: `none` embeds a thrown
`SyntaxError`; `some tf` a successfully parsed object whose (truthy,
string) `token` field is `tf` (`none` when absent or falsy, which
`body.token || ""` turns into the empty token). -/
abbrev JsonParse := JStr → Option (Option JStr)

/-- JS `a || b` on strings: the left operand unless it is empty. -/
def jsOr (a b : JStr) : JStr :=
  if a = [] then b else a

/-- Extract the token of an `Authorization: Bearer <token>` header. -/
def bearerToken (auth : Option JStr) : JStr :=
  match auth with
  | some a => if "Bearer ".data.isPrefixOf a then a.drop 7 else []
  | none => []

/-- Domain resolution shared by both servers (`hostFromHeaders` /
`handleVerify` lines 124-131): first non-empty of `x-forwarded-host`,
`x-original-host`, `x-forwarded-server`, then `host`; first comma-separated
token, trimmed, minus any port suffix. -/
def hostFromHeaders (req : VReq) : JStr :=
  let forwardedHost :=
    jsOr ((req.xForwardedHost).getD [])
      (jsOr ((req.xOriginalHost).getD []) ((req.xForwardedServer).getD []))
  let hostHeader := jsOr forwardedHost ((req.host).getD [])
  let hostValue := jsTrim (hostHeader.takeWhile (fun c => c ≠ ','))
  hostValue.takeWhile (fun c => c ≠ ':')

/-- Where the endpoint's state machine terminates before calling the token
verifier, or the `verify` step it hands the extracted token and resolved
domain to. -/
inductive VerifyStep
  | preflight
  | methodNotAllowed
  | invalidJson
  | missingToken
  | missingDomain
  | verify (token : JStr) (domain : JStr)
deriving DecidableEq

/-- From `deno/verify.ts` lines 28-60 (`readToken`): on POST, parse the body as
JSON and take its `token` field, with any parse failure (either via
`req.json()` or `JSON.parse`) swallowed into an empty token; fall back to
the `Authorization: Bearer` header when the body yielded no token. -/
def readToken (parse : JsonParse) (req : VReq) : JStr :=
  let fromBody :=
    if req.method = "POST".data then
      if req.body = [] then []
      else
        match parse req.body with
        | some (some t) => t
        | _ => []
    else []
  if fromBody = [] then bearerToken req.authorization else fromBody

/-- The `Deno.serve` handler of `deno/verify.ts` lines 97-142, up to the
call into the token verifier (the pathname check is not modeled: the
requests of interest target `/api/verify`).  A malformed POST body is
swallowed by `readToken`, so it can only surface as `missing_token`. -/
def denoVerifyStep (appDomain : JStr) (parse : JsonParse) (req : VReq) :
    VerifyStep :=
  if req.method = "OPTIONS".data then .preflight
  else if req.method ≠ "GET".data ∧ req.method ≠ "POST".data then
    .methodNotAllowed
  else
    let token := readToken parse req
    if token = [] then .missingToken
    else
      let domain := jsOr appDomain (hostFromHeaders req)
      if domain = [] then .missingDomain
      else .verify token domain

/-- The token/domain part of `handleVerify` after body parsing
(`src/server/index.ts` lines 112-136). -/
def nodeAfterBody (appDomain : JStr) (req : VReq) (tokenFromBody : JStr) :
    VerifyStep :=
  let token := jsOr tokenFromBody (bearerToken req.authorization)
  if token = [] then .missingToken
  else
    let domain := jsOr appDomain (hostFromHeaders req)
    if domain = [] then .missingDomain
    else .verify token domain

/-- From `src/server/index.ts` lines 87-136 (`handleVerify`), up to the call into
the token verifier: OPTIONS preflight, 405 on other non-GET/POST methods,
then — unlike the Deno revision — a non-empty POST body that fails
`JSON.parse` is answered with `400 {error: "invalid_json"}` before any
header fallback. -/
def handleVerify (appDomain : JStr) (parse : JsonParse) (req : VReq) :
    VerifyStep :=
  if req.method = "OPTIONS".data then .preflight
  else if req.method ≠ "POST".data ∧ req.method ≠ "GET".data then
    .methodNotAllowed
  else
    let raw := if req.method = "POST".data then req.body else []
    if raw = [] then nodeAfterBody appDomain req []
    else
      match parse raw with
      | none => .invalidJson
      | some tf => nodeAfterBody appDomain req (tf.getD [])

/-- The balance a settled `balanceOfAddress` promise contributes to
`total`: its value when fulfilled, zero when rejected. -/
def successValue (rpc : JStr → RpcOutcome) (a : JStr) : Nat :=
  match balanceOfAddress rpc a with
  | .ok v => v
  | .error _ => 0

/-- Whether the `balanceOfAddress` promise for `a` settles fulfilled. -/
def isOkBalance (rpc : JStr → RpcOutcome) (a : JStr) : Bool :=
  match balanceOfAddress rpc a with
  | .ok _ => true
  | .error _ => false

/-- Store invariant: every post document key was generated by the
fresh-id counter. -/
def postKeysBound (st : Store) : Prop :=
  ∀ e ∈ st.posts, e.1 < st.nextId

/-- Store invariant: every reply document references a post key generated
by the fresh-id counter. -/
def replyKeysBound (st : Store) : Prop :=
  ∀ e ∈ st.replies, e.2.postId < st.nextId

/-- Store invariant: every post document's `threadCount` equals the number
of reply documents under it. -/
def threadCountsMatch (st : Store) : Prop :=
  ∀ pid p, lookupPost st pid = some p → p.threadCount = countReplies st pid

/-- A transport on which every balance query rejects. -/
def constRpcFail : JStr → RpcOutcome :=
  fun _ => RpcOutcome.fail []

/-- A well-formed address literal. -/
def wAddr : JStr := "0xabcdefabcdef0123456789abcdefabcdef012345".data

/-- A provider error with the EIP-1193 user-rejected code 4001. -/
def wErr : JsError :=
  { code := some (CodeVal.num 4001), message := "user rejected the request".data }

/-- A provider on mainnet (`eth_chainId` answers `"0x1"`) whose
`wallet_switchEthereumChain` request is rejected by the user. -/
def wProvider : ProviderTrace :=
  { ethChainId1 := Except.ok (JsValue.str "0x1".data),
    switchChain := Except.error wErr,
    ethChainId2 := Except.ok (JsValue.str "0x1".data),
    addChain := Except.ok (),
    ethChainId3 := Except.ok (JsValue.str "0x1".data) }

/-- A `JSON.parse` oracle under which the body `notjson` (not valid JSON)
throws — and so does every other body submitted to it. -/
def cexParse : JsonParse := fun _ => none

/-- A POST to `/api/verify` whose body is present but not parseable as
JSON, with no `Authorization` header. -/
def cexReq : VReq :=
  { method := "POST".data, body := "notjson".data, authorization := none,
    xForwardedHost := none, xOriginalHost := none, xForwardedServer := none,
    host := some "app.example".data }

/-- A freshly created post document. -/
def wPost : Post :=
  { title := "t".data, body := "b".data, fid := 1, uid := "u".data,
    voteCount := 0, threadCount := 0 }

/-- A store holding one post and no votes. -/
def wStore : Store := ⟨1, [(0, wPost)], [], []⟩

/-- One accepted post followed by one accepted reply to it. -/
def wOps : List WriteOp :=
  [WriteOp.post "t".data "b".data 1 "u".data,
   WriteOp.reply 0 "hi".data 2 "v".data]

/-! Helper lemmas. -/

lemma mem_insertUniq {acc : List JStr} {x b : JStr} :
    b ∈ insertUniq acc x ↔ b ∈ acc ∨ b = x := by
  unfold insertUniq
  by_cases h : x ∈ acc
  · simp only [h, if_true]
    constructor
    · exact Or.inl
    · rintro (hb | rfl)
      · exact hb
      · exact h
  · simp [h]

lemma nodup_insertUniq {acc : List JStr} {x : JStr} (h : acc.Nodup) :
    (insertUniq acc x).Nodup := by
  unfold insertUniq
  by_cases hx : x ∈ acc
  · simpa [hx]
  · simp [hx, List.nodup_append, h]

lemma mem_foldl_insertUniq (l : List JStr) :
    ∀ (acc : List JStr) (b : JStr),
      b ∈ l.foldl insertUniq acc ↔ b ∈ acc ∨ b ∈ l := by
  induction l with
  | nil => simp
  | cons x t ih =>
    intro acc b
    simp only [List.foldl_cons, ih, mem_insertUniq, List.mem_cons]
    tauto

lemma nodup_foldl_insertUniq (l : List JStr) :
    ∀ acc : List JStr, acc.Nodup → (l.foldl insertUniq acc).Nodup := by
  induction l with
  | nil => intro acc h; simpa
  | cons x t ih =>
    intro acc h
    exact ih _ (nodup_insertUniq h)

lemma mem_uniqueAddresses_aux (l : List JStr) :
    ∀ acc : List JStr,
      (∀ b ∈ acc, addressFormat b = true) →
      ∀ b ∈ l.foldl
        (fun acc address =>
          match normalizeAddress address with
          | some normalized => insertUniq acc normalized
          | none => acc) acc,
        addressFormat b = true := by
  induction l with
  | nil => intro acc hacc b hb; exact hacc b hb
  | cons x t ih =>
    intro acc hacc b hb
    simp only [List.foldl_cons] at hb
    rcases hx : normalizeAddress x with _ | n
    · rw [hx] at hb
      exact ih acc hacc b hb
    · rw [hx] at hb
      refine ih _ ?_ b hb
      intro c hc
      rcases mem_insertUniq.mp hc with hc | rfl
      · exact hacc c hc
      · revert hx
        unfold normalizeAddress
        by_cases hfmt : addressFormat (toLowerStr (jsTrim x)) = true
        · simp only [hfmt, if_true]
          intro h
          cases h
          exact hfmt
        · simp [hfmt]

lemma mem_uniqueAddresses_format {l : List JStr} {b : JStr}
    (hb : b ∈ uniqueAddresses l) : addressFormat b = true :=
  mem_uniqueAddresses_aux l [] (by simp) b hb

lemma nodup_uniqueAddresses (l : List JStr) : (uniqueAddresses l).Nodup := by
  unfold uniqueAddresses
  generalize hacc : ([] : List JStr) = acc
  have hnd : acc.Nodup := by rw [← hacc]; exact List.nodup_nil
  clear hacc
  induction l generalizing acc with
  | nil => simpa
  | cons x t ih =>
    simp only [List.foldl_cons]
    rcases normalizeAddress x with _ | n
    · exact ih acc hnd
    · exact ih _ (nodup_insertUniq hnd)

lemma aggregateHoldings_foldl (rpc : JStr → RpcOutcome) (addrs : List JStr) :
    ∀ s : HoldingsSummary,
      addrs.foldl
        (fun s a =>
          match balanceOfAddress rpc a with
          | .ok v => { s with total := s.total + v, checked := s.checked + 1 }
          | .error _ => { s with failed := s.failed + 1 }) s
      = ⟨s.total + (addrs.map (successValue rpc)).sum,
         s.checked + addrs.countP (isOkBalance rpc),
         s.failed + addrs.countP (fun a => !isOkBalance rpc a)⟩ := by
  induction addrs with
  | nil => intro s; simp
  | cons a t ih =>
    intro s
    simp only [List.foldl_cons, List.map_cons, List.sum_cons,
      List.countP_cons]
    rcases hb : balanceOfAddress rpc a with v | e
    · rw [ih]
      simp [successValue, isOkBalance, hb, HoldingsSummary.mk.injEq]
      omega
    · rw [ih]
      simp [successValue, isOkBalance, hb, HoldingsSummary.mk.injEq]
      omega

lemma aggregateHoldings_spec (rpc : JStr → RpcOutcome) (addrs : List JStr) :
    aggregateHoldings addrs rpc
      = ⟨(addrs.map (successValue rpc)).sum,
         addrs.countP (isOkBalance rpc),
         addrs.countP (fun a => !isOkBalance rpc a)⟩ := by
  unfold aggregateHoldings
  rw [aggregateHoldings_foldl]
  simp

lemma countP_not_add (p : JStr → Bool) (l : List JStr) :
    l.countP p + l.countP (fun a => !p a) = l.length := by
  induction l with
  | nil => rfl
  | cons a t ih =>
    by_cases h : p a <;> simp [List.countP_cons, h] <;> omega

lemma checkProfileHoldings_snd (verifiedAddresses : List JStr)
    (rpc : JStr → RpcOutcome) :
    (checkProfileHoldings verifiedAddresses rpc).2
      = aggregateHoldings (uniqueAddresses verifiedAddresses) rpc := by
  unfold checkProfileHoldings
  by_cases h : uniqueAddresses verifiedAddresses = []
  · simp [h, aggregateHoldings]
  · simp only [h, if_false]
    by_cases h0 :
        (aggregateHoldings (uniqueAddresses verifiedAddresses) rpc).checked
          = 0 <;>
      simp [h0]

/-! Claims about the Holder Gate and the Holdings Aggregator. -/

/-- C3: after every recomputation of holder state, `isHolder` is true if and
only if the profile holdings total is strictly positive or the wallet
balance is strictly positive; it is false when both are zero or when either
input is unknown (`null`) and the other is not strictly positive. -/
theorem claim_C3 (profileHoldings : Option HoldingsSummary)
    (walletHoldings : Option Nat) :
    updateHolderState profileHoldings walletHoldings = true ↔
      (∃ s, profileHoldings = some s ∧ 0 < s.total) ∨
      (∃ n, walletHoldings = some n ∧ 0 < n) := by
  cases profileHoldings <;> cases walletHoldings <;>
    simp [updateHolderState]

/-- C4: for every input address list and every mix of per-address outcomes,
the aggregation runs over the normalized, deduplicated address set, and the
returned summary satisfies `checked + failed = |deduplicated set|` with
`total` the sum of the successfully retrieved balances only (failed lookups
contribute zero). -/
theorem claim_C4 (verifiedAddresses : List JStr) (rpc : JStr → RpcOutcome) :
    (uniqueAddresses verifiedAddresses).Nodup ∧
    (checkProfileHoldings verifiedAddresses rpc).2.checked
        + (checkProfileHoldings verifiedAddresses rpc).2.failed
      = (uniqueAddresses verifiedAddresses).length ∧
    (checkProfileHoldings verifiedAddresses rpc).2.total
      = ((uniqueAddresses verifiedAddresses).map (successValue rpc)).sum := by
  refine ⟨nodup_uniqueAddresses _, ?_, ?_⟩
  · rw [checkProfileHoldings_snd, aggregateHoldings_spec]
    exact countP_not_add _ _
  · rw [checkProfileHoldings_snd, aggregateHoldings_spec]

/-- C10: when the deduplicated verified-address set is non-empty and every
balance query fails, `profileHoldings` is stored as `null` (not as a
zero-total summary, so the all-failed case stays distinguishable from a
genuine zero balance), and the holder recomputation then treats the profile
contribution as zero: an all-failed profile check alone never makes
`isHolder` true. -/
theorem claim_C10 (verifiedAddresses : List JStr) (rpc : JStr → RpcOutcome)
    (walletHoldings : Option Nat)
    (hne : uniqueAddresses verifiedAddresses ≠ [])
    (hall : ∀ a ∈ uniqueAddresses verifiedAddresses,
      isOkBalance rpc a = false) :
    (checkProfileHoldings verifiedAddresses rpc).1 = none ∧
    (∀ s, (checkProfileHoldings verifiedAddresses rpc).1 ≠ some s) ∧
    updateHolderState (checkProfileHoldings verifiedAddresses rpc).1 none
      = false ∧
    (updateHolderState (checkProfileHoldings verifiedAddresses rpc).1
        walletHoldings = true ↔
      ∃ n, walletHoldings = some n ∧ 0 < n) := by
  have hchecked :
      (aggregateHoldings (uniqueAddresses verifiedAddresses) rpc).checked
        = 0 := by
    rw [aggregateHoldings_spec]
    exact List.countP_eq_zero.mpr (by simpa using hall)
  have h1 : (checkProfileHoldings verifiedAddresses rpc).1 = none := by
    unfold checkProfileHoldings
    simp [hne, hchecked]
  refine ⟨h1, ?_, ?_, ?_⟩
  · intro s
    rw [h1]
    exact Option.noConfusion
  · rw [h1]
    rfl
  · rw [h1]
    cases walletHoldings <;> simp [updateHolderState]

/-- C8: a candidate address that does not consist of exactly 40 hex
characters after the `0x` prefix is rejected locally: `normalizeAddress`
refuses it, the deduplicated query set contains only well-formed addresses
(so the malformed candidate is never queried and never counted as a network
failure), and on the direct path `encodeBalanceOf`'s length check raises the
local `Invalid address` error irrespective of the RPC transport — an error
no well-formed-length address can produce. -/
theorem claim_C8 (a : JStr) (l : List JStr)
    (rpc rpc2 : JStr → RpcOutcome)
    (hmal : addressFormat (toLowerStr (jsTrim a)) = false) :
    normalizeAddress a = none ∧
    (∀ b ∈ uniqueAddresses l, addressFormat b = true) ∧
    (∀ b ∈ uniqueAddresses l, b ≠ toLowerStr (jsTrim a)) ∧
    ((removeFirst0x (toLowerStr a)).length ≠ 40 →
      balanceOfAddress rpc a = Except.error BalanceError.invalidAddress ∧
      balanceOfAddress rpc a = balanceOfAddress rpc2 a) ∧
    (∀ a2, (removeFirst0x (toLowerStr a2)).length = 40 →
      balanceOfAddress rpc a2 ≠ Except.error BalanceError.invalidAddress) := by
  refine ⟨?_, ?_, ?_, ?_, ?_⟩
  · unfold normalizeAddress
    simp [hmal]
  · intro b hb
    exact mem_uniqueAddresses_format hb
  · intro b hb heq
    rw [heq] at hb
    exact absurd (mem_uniqueAddresses_format hb) (by simp [hmal])
  · intro hlen
    have henc : encodeBalanceOf a = none := by
      unfold encodeBalanceOf
      simp [hlen]
    unfold balanceOfAddress
    rw [henc]
    exact ⟨rfl, rfl⟩
  · intro a2 hlen
    have henc : ∃ d, encodeBalanceOf a2 = some d := by
      unfold encodeBalanceOf
      simp [hlen]
    obtain ⟨d, hd⟩ := henc
    unfold balanceOfAddress
    rw [hd]
    rcases hr : rpc d with r | m
    · rcases hp : parseHexToBigInt r with _ | v <;> simp [hr, hp]
    · simp [hr]

/-- Witness for C10 at a concrete all-failing transport. -/
theorem claim_C10_witness :
    (checkProfileHoldings [wAddr] constRpcFail).1 = none :=
  (claim_C10 [wAddr] constRpcFail (some 2) (by decide) (by decide)).1

/-- Witness for C8 at the malformed candidate `0x123`. -/
theorem claim_C8_witness :
    balanceOfAddress constRpcFail "0x123".data
      = Except.error BalanceError.invalidAddress :=
  ((claim_C8 "0x123".data [] constRpcFail constRpcFail
    (by decide)).2.2.2.1 (by decide)).1

/-! Hex numeral lemmas. -/

lemma hexFold_init (l : JStr) :
    ∀ a : Nat,
      l.foldl (fun a c => a * 16 + (hexDigitVal? c).getD 0) a
        = a * 16 ^ l.length + hexListVal l := by
  induction l with
  | nil => intro a; simp [hexListVal]
  | cons c t ih =>
    intro a
    have h0 : hexListVal (c :: t)
        = List.foldl (fun a c => a * 16 + (hexDigitVal? c).getD 0)
            (0 * 16 + (hexDigitVal? c).getD 0) t := rfl
    simp only [List.foldl_cons]
    rw [h0, ih, ih, List.length_cons]
    ring

lemma hexListVal_cons (c : Char) (t : JStr) :
    hexListVal (c :: t)
      = (hexDigitVal? c).getD 0 * 16 ^ t.length + hexListVal t := by
  have h0 : hexListVal (c :: t)
      = List.foldl (fun a c => a * 16 + (hexDigitVal? c).getD 0)
          (0 * 16 + (hexDigitVal? c).getD 0) t := rfl
  rw [h0, hexFold_init]
  ring

lemma hexListVal_append (l m : JStr) :
    hexListVal (l ++ m) = hexListVal l * 16 ^ m.length + hexListVal m := by
  have h0 : hexListVal (l ++ m)
      = List.foldl (fun a c => a * 16 + (hexDigitVal? c).getD 0)
          (hexListVal l) m := by
    unfold hexListVal
    rw [List.foldl_append]
  rw [h0, hexFold_init]

lemma hexListVal_replicate_zero (k : Nat) :
    hexListVal (List.replicate k '0') = 0 := by
  induction k with
  | zero => rfl
  | succ k ih =>
    rw [List.replicate_succ, hexListVal_cons, ih]
    simp [show hexDigitVal? '0' = some 0 from rfl]

lemma parseHexDigits_eq_some (l : JStr) (h : l.all isHexDigitChar = true) :
    parseHexDigits l = some (hexListVal l) := by
  unfold parseHexDigits hexListVal
  have key : ∀ (t : JStr), t.all isHexDigitChar = true → ∀ a : Nat,
      t.foldl
        (fun acc c =>
          match acc, hexDigitVal? c with
          | some a, some d => some (a * 16 + d)
          | _, _ => none)
        (some a)
      = some (t.foldl (fun a c => a * 16 + (hexDigitVal? c).getD 0) a) := by
    intro t
    induction t with
    | nil => intro _ a; rfl
    | cons c u ih =>
      intro hall a
      simp only [List.all_cons, Bool.and_eq_true] at hall
      obtain ⟨hc, hu⟩ := hall
      obtain ⟨d, hd⟩ := Option.isSome_iff_exists.mp hc
      simp only [List.foldl_cons, hd]
      rw [ih hu]
      simp [hd]
  exact key l h 0

lemma hexDigitVal_hexDigitChar {d : Nat} (h : d < 16) :
    hexDigitVal? (hexDigitChar d) = some d := by
  interval_cases d <;> rfl

lemma natToHexAux_val (n : Nat) :
    ∀ acc : JStr,
      hexListVal (natToHexAux n acc) = n * 16 ^ acc.length + hexListVal acc := by
  induction n using Nat.strong_induction_on with
  | _ n ih =>
    intro acc
    rw [natToHexAux]
    by_cases h : n = 0
    · simp [h]
    · simp only [h, dite_false]
      rw [ih (n / 16) (Nat.div_lt_self (Nat.pos_of_ne_zero h) (by norm_num))]
      rw [hexListVal_cons]
      have hd : hexDigitVal? (hexDigitChar (n % 16)) = some (n % 16) :=
        hexDigitVal_hexDigitChar (Nat.mod_lt _ (by norm_num))
      rw [hd]
      simp only [Option.getD_some, List.length_cons]
      have h16 : 16 * (n / 16) + n % 16 = n := Nat.div_add_mod n 16
      conv_rhs => rw [← h16]
      ring

lemma natToHexAux_all (n : Nat) :
    ∀ acc : JStr, acc.all isHexDigitChar = true →
      (natToHexAux n acc).all isHexDigitChar = true := by
  induction n using Nat.strong_induction_on with
  | _ n ih =>
    intro acc hacc
    rw [natToHexAux]
    by_cases h : n = 0
    · subst h
      simpa using hacc
    · simp only [h, dite_false]
      refine ih (n / 16)
        (Nat.div_lt_self (Nat.pos_of_ne_zero h) (by norm_num)) _ ?_
      have hd : hexDigitVal? (hexDigitChar (n % 16)) = some (n % 16) :=
        hexDigitVal_hexDigitChar (Nat.mod_lt _ (by norm_num))
      simp [isHexDigitChar, hd, hacc]

lemma natToHexAux_length (n : Nat) :
    ∀ acc : JStr, acc.length ≤ (natToHexAux n acc).length := by
  induction n using Nat.strong_induction_on with
  | _ n ih =>
    intro acc
    rw [natToHexAux]
    by_cases h : n = 0
    · simp [h]
    · simp only [h, dite_false]
      calc acc.length
          ≤ (hexDigitChar (n % 16) :: acc).length := by simp
        _ ≤ _ := ih (n / 16)
              (Nat.div_lt_self (Nat.pos_of_ne_zero h) (by norm_num)) _

lemma natToHex_val (n : Nat) : hexListVal (natToHex n) = n := by
  unfold natToHex
  by_cases h : n = 0
  · simp [h]
    rfl
  · simp only [h, if_false]
    rw [natToHexAux_val]
    simp [hexListVal]

lemma natToHex_all (n : Nat) : (natToHex n).all isHexDigitChar = true := by
  unfold natToHex
  by_cases h : n = 0
  · simp [h]
    rfl
  · simp only [h, if_false]
    exact natToHexAux_all n [] rfl

lemma natToHex_ne_nil (n : Nat) : natToHex n ≠ [] := by
  unfold natToHex
  by_cases h : n = 0
  · simp [h]
  · simp only [h, if_false]
    intro hcontra
    have h1 : (1 : Nat) ≤ (natToHexAux n []).length := by
      have := natToHexAux_length (n / 16)
        ((hexDigitChar (n % 16)) :: [])
      rw [natToHexAux] at hcontra ⊢
      simp only [h, dite_false] at hcontra ⊢
      rw [hcontra] at this
      simp at this
    rw [hcontra] at h1
    simp at h1

lemma parse_hex_roundtrip (n k : Nat) :
    parseHexToBigInt ('0' :: 'x' :: (List.replicate k '0' ++ natToHex n))
      = some n := by
  have hds : List.replicate k '0' ++ natToHex n ≠ [] := by
    simp [natToHex_ne_nil n]
  have hall : (List.replicate k '0' ++ natToHex n).all isHexDigitChar
      = true := by
    rw [List.all_append, natToHex_all n, Bool.and_true]
    simp only [List.all_eq_true]
    intro c hc
    rw [List.eq_of_mem_replicate hc]
    rfl
  unfold parseHexToBigInt
  have hne : ¬('0' :: 'x' :: (List.replicate k '0' ++ natToHex n) = [] ∨
      '0' :: 'x' :: (List.replicate k '0' ++ natToHex n) = '0' :: 'x' :: []) := by
    simp [hds]
  simp only [hne, if_false]
  unfold jsBigIntOfString
  simp only [hds, if_false]
  rw [parseHexDigits_eq_some _ hall, hexListVal_append,
    hexListVal_replicate_zero, natToHex_val]
  simp

/-- C9: for a valid address (40 characters after stripping the `0x`
prefix), the encoded `balanceOf` call data is the selector `0x70a08231`
followed by the lower-cased address left-padded with `0` to 32 bytes; and
decoding maps the empty string and `"0x"` to 0 and any other `0x`-prefixed
hex numeral — written with any number of leading zeros — to its value. -/
theorem claim_C9 (addr : JStr) (n k : Nat)
    (h : (removeFirst0x (toLowerStr addr)).length = 40) :
    encodeBalanceOf addr
      = some ("0x70a08231".data
          ++ (List.replicate 24 '0' ++ removeFirst0x (toLowerStr addr))) ∧
    parseHexToBigInt [] = some 0 ∧
    parseHexToBigInt ('0' :: 'x' :: []) = some 0 ∧
    parseHexToBigInt ('0' :: 'x' :: (List.replicate k '0' ++ natToHex n))
      = some n := by
  refine ⟨?_, rfl, rfl, parse_hex_roundtrip n k⟩
  unfold encodeBalanceOf
  simp only [h, if_true]

/-- Witness for C9 at a concrete valid address, with balance 3 encoded as
`0x0000003 + natToHex`. -/
theorem claim_C9_witness :
    parseHexToBigInt ('0' :: 'x' :: (List.replicate 5 '0' ++ natToHex 3))
      = some 3 ∧
    encodeBalanceOf wAddr
      = some ("0x70a08231".data
          ++ (List.replicate 24 '0' ++ removeFirst0x (toLowerStr wAddr))) :=
  ⟨(claim_C9 wAddr 3 5 (by decide)).2.2.2, (claim_C9 wAddr 3 5 (by decide)).1⟩

/-! Claims about the Verification Endpoint. -/

/-- C5, counterexample: the handlers deduplicate with a plain JS
`Set<string>` and never lower-case, so the spec's example inputs come back
in their original casing — not `["0xabc...1", "0xdef...2"]` — and two
case-variants of one address both survive deduplication. -/
theorem claim_C5_counterexample :
    buildVerifiedEthAddresses ["0xABC1".data] [] (some "0xDEF2".data)
        = ["0xABC1".data, "0xDEF2".data] ∧
    buildVerifiedEthAddresses ["0xABC1".data] [] (some "0xDEF2".data)
        ≠ ["0xabc1".data, "0xdef2".data] ∧
    buildVerifiedEthAddresses ["0xAB".data] ["0xab".data] none
        = ["0xAB".data, "0xab".data] := by
  refine ⟨rfl, ?_, rfl⟩
  decide

/-- C5, amended: `verifiedEthAddresses` is the union of the directory's
verified-address list, the alternate verifications list, and the (truthy)
custody address, deduplicated by exact case-sensitive string equality in
insertion order, and returned in the casing the directory reported. -/
theorem claim_C5 (ethAddresses verifications : List JStr)
    (custody : Option JStr) :
    (buildVerifiedEthAddresses ethAddresses verifications custody).Nodup ∧
    (∀ a, a ∈ buildVerifiedEthAddresses ethAddresses verifications custody ↔
      (a ∈ ethAddresses ∨ a ∈ verifications ∨
        (custody = some a ∧ a ≠ []))) := by
  unfold buildVerifiedEthAddresses
  have hnd2 : (verifications.foldl insertUniq
      (ethAddresses.foldl insertUniq [])).Nodup :=
    nodup_foldl_insertUniq _ _ (nodup_foldl_insertUniq _ _ List.nodup_nil)
  have hmem2 : ∀ a, a ∈ verifications.foldl insertUniq
      (ethAddresses.foldl insertUniq []) ↔
      a ∈ ethAddresses ∨ a ∈ verifications := by
    intro a
    rw [mem_foldl_insertUniq, mem_foldl_insertUniq]
    simp
  rcases custody with _ | c
  · simp only []
    refine ⟨hnd2, ?_⟩
    intro a
    rw [hmem2]
    simp
  · by_cases hc : c = []
    · simp only [hc, if_true]
      refine ⟨hnd2, ?_⟩
      intro a
      rw [hmem2]
      constructor
      · exact fun h => Or.elim h Or.inl (fun h2 => Or.inr (Or.inl h2))
      · rintro (h | h | ⟨heq, hne⟩)
        · exact Or.inl h
        · exact Or.inr h
        · cases heq
          exact absurd rfl hne
    · simp only [hc, if_false]
      refine ⟨nodup_insertUniq hnd2, ?_⟩
      intro a
      rw [mem_insertUniq, hmem2]
      constructor
      · rintro ((h | h) | rfl)
        · exact Or.inl h
        · exact Or.inr (Or.inl h)
        · exact Or.inr (Or.inr ⟨rfl, hc⟩)
      · rintro (h | h | ⟨heq, hne⟩)
        · exact Or.inl (Or.inl h)
        · exact Or.inl (Or.inr h)
        · cases heq
          exact Or.inr rfl

/-- C7, counterexample: at the Deno endpoint a POST whose body is present
but not parseable as JSON (and with no `Authorization` header) is answered
with `missing_token`, not `invalid_json`: `readToken` swallows the parse
failure. -/
theorem claim_C7_counterexample :
    denoVerifyStep [] cexParse cexReq = VerifyStep.missingToken ∧
    VerifyStep.missingToken ≠ VerifyStep.invalidJson := by
  refine ⟨rfl, ?_⟩
  decide

/-- C7, amended: for a POST whose body is present but not parseable as
JSON, the Node server (`src/server/index.ts`) responds `400 invalid_json`;
the Deno endpoint (`deno/verify.ts`) instead ignores the malformed body,
falls back to the `Authorization` header, and responds `400 missing_token`
when no Bearer token is present. -/
theorem claim_C7 (appDomain : JStr) (parse : JsonParse) (req : VReq)
    (hm : req.method = "POST".data)
    (hb : req.body ≠ [])
    (hp : parse req.body = none)
    (ha : req.authorization = none) :
    handleVerify appDomain parse req = VerifyStep.invalidJson ∧
    denoVerifyStep appDomain parse req = VerifyStep.missingToken := by
  constructor
  · unfold handleVerify
    rw [hm]
    simp only [show ("POST".data : JStr) ≠ "OPTIONS".data from by decide,
      if_false, hb, hp]
    simp [hb, hp]
  · unfold denoVerifyStep readToken bearerToken
    rw [hm, ha]
    simp only [show ("POST".data : JStr) ≠ "OPTIONS".data from by decide,
      if_false, hp]
    simp [hb, hp]

/-- Witness for C7 at the concrete malformed-body request. -/
theorem claim_C7_witness :
    handleVerify [] cexParse cexReq = VerifyStep.invalidJson :=
  (claim_C7 [] cexParse cexReq rfl (by decide) rfl rfl).1

/-! Claim about the Chain Reconciler. -/

/-- C6: with the provider on a chain other than `0x2105` and switching
allowed, a switch failure classified as user-rejected or method-unsupported
(and not as 4902) yields `useRpcFallback = true` without throwing; a 4902
failure makes the result the one decided by adding the network and
re-reading the chain id; any other provider error propagates. -/
theorem claim_C6 (p : ProviderTrace) (raw : JsValue) (e : JsError)
    (h1 : p.ethChainId1 = Except.ok raw)
    (h2 : normalizeChainId raw ≠ some baseChainId)
    (h3 : switchAndReread p = Except.error e) :
    ((is4902 e = false ∧
        (isMethodUnsupported e = true ∨ isUserRejected e = true)) →
      ensureBaseChain p true = Except.ok ⟨normalizeChainId raw, true⟩) ∧
    (is4902 e = true →
      ensureBaseChain p true
        = (match addAndReread p with
           | .ok c => Except.ok (finishResult c)
           | .error _ => Except.ok ⟨normalizeChainId raw, true⟩)) ∧
    ((is4902 e = false ∧ isMethodUnsupported e = false ∧
        isUserRejected e = false) →
      ensureBaseChain p true = Except.error e) := by
  have hmain : ensureBaseChain p true
      = (if is4902 e then
          (match addAndReread p with
           | .ok c => Except.ok (finishResult c)
           | .error _ => Except.ok ⟨normalizeChainId raw, true⟩)
         else if isMethodUnsupported e || isUserRejected e then
          Except.ok ⟨normalizeChainId raw, true⟩
         else Except.error e) := by
    unfold ensureBaseChain
    rw [h1]
    simp only [h2, decide_False, Bool.not_false, Bool.and_true,
      decide_eq_false_iff_not, ne_eq, not_false_eq_true, decide_True,
      Bool.true_and, if_true]
    rw [h3]
  refine ⟨?_, ?_, ?_⟩
  · rintro ⟨h4, h5⟩
    rw [hmain]
    have h5b : (isMethodUnsupported e || isUserRejected e) = true := by
      rcases h5 with h5 | h5 <;> simp [h5]
    simp [h4, h5b]
  · intro h4
    rw [hmain]
    simp [h4]
  · rintro ⟨h4, h5, h6⟩
    rw [hmain]
    simp [h4, h5, h6]

/-- Witness for C6: a provider on mainnet whose switch request the user
rejects (EIP-1193 code 4001) makes the reconciler fall back to RPC without
throwing. -/
theorem claim_C6_witness :
    ensureBaseChain wProvider true
      = Except.ok ⟨some ('0' :: 'x' :: '1' :: []), true⟩ :=
  (claim_C6 wProvider (JsValue.str "0x1".data) wErr rfl (by decide)
      rfl).1 ⟨by decide, Or.inr (by decide)⟩

/-! Claims about the Gated Write Transaction. -/

lemma find?_entry_cons_of_pos (x : Nat × Post) (l : List (Nat × Post))
    (pid : Nat) (h : (x.1 == pid) = true) :
    List.find? (fun e => e.1 == pid) (x :: l) = some x :=
  List.find?_cons_of_pos l h

lemma find?_entry_cons_of_neg (x : Nat × Post) (l : List (Nat × Post))
    (pid : Nat) (h : ¬(x.1 == pid) = true) :
    List.find? (fun e => e.1 == pid) (x :: l)
      = List.find? (fun e => e.1 == pid) l :=
  List.find?_cons_of_neg l h

lemma find?_mapAt_eq (posts : List (Nat × Post)) (pid : Nat)
    (f : Post → Post) :
    (posts.map (fun e => if e.1 == pid then (e.1, f e.2) else e)).find?
        (fun e => e.1 == pid)
      = (posts.find? (fun e => e.1 == pid)).map (fun e => (e.1, f e.2)) := by
  induction posts with
  | nil => rfl
  | cons hd tl ih =>
    by_cases h : (hd.1 == pid) = true
    · simp only [List.map_cons, if_pos h]
      rw [find?_entry_cons_of_pos (hd.1, f hd.2) _ _ h,
        find?_entry_cons_of_pos hd _ _ h]
      rfl
    · simp only [List.map_cons, if_neg h]
      rw [find?_entry_cons_of_neg _ _ _ h, find?_entry_cons_of_neg _ _ _ h,
        ih]

lemma find?_mapAt_ne (posts : List (Nat × Post)) (pid0 pid : Nat)
    (f : Post → Post) (h : pid ≠ pid0) :
    (posts.map (fun e => if e.1 == pid0 then (e.1, f e.2) else e)).find?
        (fun e => e.1 == pid)
      = posts.find? (fun e => e.1 == pid) := by
  induction posts with
  | nil => rfl
  | cons hd tl ih =>
    by_cases hk0 : (hd.1 == pid0) = true
    · have hk : ¬(hd.1 == pid) = true := by
        simp only [beq_iff_eq] at hk0 ⊢
        rw [hk0]
        exact fun hh => h hh.symm
      simp only [List.map_cons, if_pos hk0]
      rw [find?_entry_cons_of_neg (hd.1, f hd.2) _ _ hk,
        find?_entry_cons_of_neg hd _ _ hk, ih]
    · simp only [List.map_cons, if_neg hk0]
      by_cases hk : (hd.1 == pid) = true
      · rw [find?_entry_cons_of_pos _ _ _ hk, find?_entry_cons_of_pos _ _ _ hk]
      · rw [find?_entry_cons_of_neg _ _ _ hk, find?_entry_cons_of_neg _ _ _ hk,
          ih]

/-- C1: a vote cast while the `(postId, uid)` record already exists is a
no-op reporting "already voted"; a vote cast without it creates exactly one
record and increments the post's `voteCount` by exactly one in the same
transaction — so two successive `voteOnPost` calls by one user leave
exactly one vote record and one increment. -/
theorem claim_C1 (st : Store) (postId : Nat) (uid : JStr) (p : Post)
    (hv : (postId, uid) ∉ st.votes)
    (hp : lookupPost st postId = some p) :
    (∀ st2 : Store, (postId, uid) ∈ st2.votes →
      voteOnPost st2 postId uid = (st2, VoteResult.alreadyVoted)) ∧
    (voteOnPost st postId uid).2 = VoteResult.recorded ∧
    List.count (postId, uid) (voteOnPost st postId uid).1.votes = 1 ∧
    lookupPost (voteOnPost st postId uid).1 postId
      = some { p with voteCount := p.voteCount + 1 } ∧
    voteOnPost (voteOnPost st postId uid).1 postId uid
      = ((voteOnPost st postId uid).1, VoteResult.alreadyVoted) := by
  have hstep : voteOnPost st postId uid
      = (⟨st.nextId, bumpVoteCount st.posts postId, st.replies,
          st.votes ++ [(postId, uid)]⟩, VoteResult.recorded) := by
    unfold voteOnPost
    rw [if_neg hv, hp]
  obtain ⟨e, he, hesnd⟩ := Option.map_eq_some'.mp hp
  refine ⟨?_, by rw [hstep], ?_, ?_, ?_⟩
  · intro st2 hmem
    unfold voteOnPost
    rw [if_pos hmem]
  · rw [hstep]
    simp [List.count_append, List.count_eq_zero.mpr hv]
  · rw [hstep]
    show ((bumpVoteCount st.posts postId).find?
        (fun e => e.1 == postId)).map Prod.snd = _
    unfold bumpVoteCount
    rw [find?_mapAt_eq, he]
    simp only [Option.map_some']
    rw [hesnd]
    rfl
  · rw [hstep]
    conv_lhs => unfold voteOnPost
    rw [if_pos (List.mem_append_right _ (by simp))]

/-- Witness for C1 at a one-post store with no votes. -/
theorem claim_C1_witness :
    (voteOnPost wStore 0 "u".data).2 = VoteResult.recorded ∧
    List.count (0, "u".data) (voteOnPost wStore 0 "u".data).1.votes = 1 :=
  ⟨(claim_C1 wStore 0 "u".data wPost (by decide) rfl).2.1,
   (claim_C1 wStore 0 "u".data wPost (by decide) rfl).2.2.1⟩

lemma inv_createPost (st : Store) (title body : JStr) (fid : Nat)
    (uid : JStr)
    (h1 : postKeysBound st) (h2 : replyKeysBound st)
    (h3 : threadCountsMatch st) :
    postKeysBound (createPost st title body fid uid) ∧
    replyKeysBound (createPost st title body fid uid) ∧
    threadCountsMatch (createPost st title body fid uid) := by
  unfold createPost
  by_cases hrej :
      title = [] ∨ body = [] ∨ 120 < title.length ∨ 1200 < body.length
  · simp only [hrej, if_true]
    exact ⟨h1, h2, h3⟩
  · simp only [hrej, if_false]
    refine ⟨?_, ?_, ?_⟩
    · intro e he
      rcases List.mem_append.mp he with he | he
      · exact Nat.lt_succ_of_lt (h1 e he)
      · simp only [List.mem_singleton] at he
        rw [he]
        exact Nat.lt_succ_self _
    · intro e he
      exact Nat.lt_succ_of_lt (h2 e he)
    · intro pid p hp
      set q : Post :=
        { title := title, body := body, fid := fid, uid := uid,
          voteCount := 0, threadCount := 0 }
      unfold lookupPost at hp
      simp only [List.find?_append] at hp
      rcases hfind : st.posts.find? (fun e => e.1 == pid) with _ | e
      · rw [hfind, Option.none_or] at hp
        by_cases hid : (st.nextId == pid) = true
        · have hsingle :
              List.find? (fun e => e.1 == pid) [(st.nextId, q)]
                = some (st.nextId, q) :=
            find?_entry_cons_of_pos (st.nextId, q) [] pid hid
          rw [hsingle] at hp
          simp only [Option.map_some', Option.some.injEq] at hp
          rw [← hp]
          show (0 : Nat) = countReplies _ pid
          unfold countReplies
          symm
          rw [List.countP_eq_zero]
          intro r hr
          have hb := h2 r hr
          simp only [beq_iff_eq] at hid ⊢
          omega
        · have hsingle :
              List.find? (fun e => e.1 == pid) [(st.nextId, q)] = none := by
            rw [@List.find?_cons_of_neg _ (fun e => e.1 == pid)
              (st.nextId, q) [] hid, List.find?_nil]
          rw [hsingle] at hp
          simp at hp
      · rw [hfind, Option.or_some] at hp
        simp only [Option.map_some', Option.some.injEq] at hp
        rw [← hp]
        exact h3 pid e.2 (by unfold lookupPost; rw [hfind]; rfl)

lemma countReplies_append (st : Store) (rid : Nat) (r : Reply)
    (pid : Nat) :
    List.countP (fun e => e.2.postId == pid) (st.replies ++ [(rid, r)])
      = countReplies st pid + (if r.postId = pid then 1 else 0) := by
  rw [List.countP_append]
  unfold countReplies
  by_cases h : r.postId = pid <;> simp [h]

lemma inv_createThreadReply (st : Store) (postId : Nat) (body : JStr)
    (fid : Nat) (uid : JStr)
    (h1 : postKeysBound st) (h2 : replyKeysBound st)
    (h3 : threadCountsMatch st) :
    postKeysBound (createThreadReply st postId body fid uid).1 ∧
    replyKeysBound (createThreadReply st postId body fid uid).1 ∧
    threadCountsMatch (createThreadReply st postId body fid uid).1 := by
  unfold createThreadReply
  by_cases hrej : body = [] ∨ 800 < body.length
  · simp only [hrej, if_true]
    exact ⟨h1, h2, h3⟩
  · simp only [hrej, if_false]
    rcases hlk : lookupPost st postId with _ | q
    · exact ⟨h1, h2, h3⟩
    · obtain ⟨w, hw, hwsnd⟩ := Option.map_eq_some'.mp hlk
      have hwkey : w.1 = postId := by
        have := List.find?_some hw
        simpa using this
      have hwmem : w ∈ st.posts := List.mem_of_find?_eq_some hw
      have hpostlt : postId < st.nextId := hwkey ▸ h1 w hwmem
      refine ⟨?_, ?_, ?_⟩
      · intro e he
        simp only at he
        unfold bumpThreadCount at he
        obtain ⟨e0, he0, heq⟩ := List.mem_map.mp he
        have hkey : e.1 = e0.1 := by
          by_cases hc : (e0.1 == postId) = true
          · rw [if_pos hc] at heq
            rw [← heq]
          · rw [if_neg hc] at heq
            rw [← heq]
        rw [hkey]
        exact Nat.lt_succ_of_lt (h1 e0 he0)
      · intro e he
        simp only at he
        rcases List.mem_append.mp he with he | he
        · exact Nat.lt_succ_of_lt (h2 e he)
        · simp only [List.mem_singleton] at he
          rw [he]
          exact Nat.lt_succ_of_lt hpostlt
      · intro pid p hp
        unfold lookupPost at hp
        simp only at hp
        show p.threadCount = countReplies _ pid
        unfold countReplies
        simp only
        rw [countReplies_append]
        by_cases hpid : pid = postId
        · subst hpid
          unfold bumpThreadCount at hp
          rw [find?_mapAt_eq, hw] at hp
          simp only [Option.map_some', Option.some.injEq] at hp
          rw [← hp]
          have hbase := h3 pid w.2 (by
            unfold lookupPost
            rw [hw]
            rfl)
          show (bumpThread w.2).threadCount = _
          unfold bumpThread
          simp only
          rw [hbase]
          simp
        · unfold bumpThreadCount at hp
          rw [find?_mapAt_ne _ _ _ _ hpid] at hp
          have hbase := h3 pid p (by unfold lookupPost; exact hp)
          rw [hbase, if_neg (fun hh => hpid hh.symm)]
          omega

lemma emptyStore_inv :
    postKeysBound emptyStore ∧ replyKeysBound emptyStore ∧
    threadCountsMatch emptyStore := by
  refine ⟨?_, ?_, ?_⟩
  · intro e he
    simp [emptyStore] at he
  · intro e he
    simp [emptyStore] at he
  · intro pid p hp
    simp [emptyStore, lookupPost] at hp

lemma runOps_inv (ops : List WriteOp) :
    postKeysBound (runOps ops) ∧ replyKeysBound (runOps ops) ∧
    threadCountsMatch (runOps ops) := by
  suffices h : ∀ st, postKeysBound st → replyKeysBound st →
      threadCountsMatch st →
      postKeysBound (ops.foldl applyOp st) ∧
      replyKeysBound (ops.foldl applyOp st) ∧
      threadCountsMatch (ops.foldl applyOp st) by
    obtain ⟨a, b, c⟩ := emptyStore_inv
    exact h emptyStore a b c
  induction ops with
  | nil => intro st a b c; exact ⟨a, b, c⟩
  | cons op t ih =>
    intro st a b c
    simp only [List.foldl_cons]
    cases op with
    | post title body fid uid =>
      obtain ⟨a2, b2, c2⟩ := inv_createPost st title body fid uid a b c
      exact ih _ a2 b2 c2
    | reply postId body fid uid =>
      obtain ⟨a2, b2, c2⟩ :=
        inv_createThreadReply st postId body fid uid a b c
      exact ih _ a2 b2 c2

/-- C2: a reply insert and the parent `threadCount` increment happen in one
transaction and posts start with `threadCount = 0`, so after any sequence
of `createPost` and `createThreadReply` operations every post's
`threadCount` equals the number of reply documents under it. -/
theorem claim_C2 (ops : List WriteOp) (pid : Nat) (p : Post)
    (h : lookupPost (runOps ops) pid = some p) :
    p.threadCount = countReplies (runOps ops) pid :=
  (runOps_inv ops).2.2 pid p h

/-- Witness for C2 after one post and one reply. -/
theorem claim_C2_witness :
    (bumpThread wPost).threadCount = countReplies (runOps wOps) 0 :=
  claim_C2 wOps 0 (bumpThread wPost) rfl

end DegenDogs
